import Mathlib

/-!
Verification development for the echodb in-memory transactional key-value
store. The ordered map underlying the database (an immutable OrdMap) is
embedded as a strictly key-sorted association list; the Transaction and
Database types and every operation are translated from src/tx.rs and
src/db.rs.
-/

set_option autoImplicit false

deriving instance DecidableEq for Except

namespace EchoDB

variable {K V : Type}

/-- Error kinds, as used by the transaction operations in src/tx.rs. -/
inductive Error where
  | TxClosed
  | TxNotWritable
  | KeyAlreadyExists
  | ValNotExpectedValue
  deriving Repr, DecidableEq

/-- An ordered map value: an association list assumed strictly sorted by key
where ordering matters. -/
abbrev OrdMap (K V : Type) := List (K × V)

namespace OrdMap

/-- Point lookup, as OrdMap get in imbl. -/
def find [DecidableEq K] (m : OrdMap K V) (k : K) : Option V :=
  match m with
  | [] => none
  | (k', v) :: rest => if k = k' then some v else find rest k

/-- Membership test, as OrdMap contains in imbl. -/
def containsKey [DecidableEq K] (m : OrdMap K V) (k : K) : Bool :=
  (find m k).isSome

/-- Insert or replace, keeping the list sorted, as OrdMap insert in imbl. -/
def insert [LinearOrder K] (m : OrdMap K V) (k : K) (v : V) : OrdMap K V :=
  match m with
  | [] => [(k, v)]
  | (k', v') :: rest =>
    if k < k' then (k, v) :: (k', v') :: rest
    else if k = k' then (k, v) :: rest
    else (k', v') :: insert rest k v

/-- Remove a key, as OrdMap remove in imbl. -/
def remove [DecidableEq K] (m : OrdMap K V) (k : K) : OrdMap K V :=
  match m with
  | [] => []
  | (k', v') :: rest => if k = k' then rest else (k', v') :: remove rest k

/-- Half-open range query on the map, as OrdMap range with beg..end in imbl:
on a sorted list this is exactly the sorted sublist of entries whose key
lies in the interval. -/
def range [LinearOrder K] (m : OrdMap K V) (lo hi : K) : OrdMap K V :=
  m.filter (fun p => decide (lo ≤ p.1) && decide (p.1 < hi))

/-- Strict sortedness by key: the representation invariant of OrdMap. -/
abbrev Sorted [LinearOrder K] (m : OrdMap K V) : Prop :=
  m.Pairwise (fun a b => a.1 < b.1)

end OrdMap

/-- A database transaction, from the Transaction struct in src/tx.rs. The
parent database back-reference and the writer lock are kept outside of the
transaction value: commit takes and returns the database explicitly. -/
structure Transaction (K V : Type) where
  done : Bool
  write : Bool
  snapshot : OrdMap K V
  deriving Repr, DecidableEq

/-- The database: its committed map, from the Database struct in src/db.rs
(the datastore cell; the writer-exclusion mutex carries no data). -/
structure Database (K V : Type) where
  datastore : OrdMap K V
  deriving Repr, DecidableEq

/-- Construct the empty database, from the new function in src/db.rs. -/
def Database.new : Database K V :=
  { datastore := [] }

/-- Begin a transaction, from Database begin in src/db.rs together with the
Transaction read and write constructors in src/tx.rs: both load the current
committed map as the private snapshot. -/
def Database.begin (db : Database K V) (write : Bool) : Transaction K V :=
  { done := false, write := write, snapshot := db.datastore }

namespace Transaction

/-- Check if the transaction is closed, from closed in src/tx.rs. -/
def closed (t : Transaction K V) : Bool :=
  t.done

/-- Cancel the transaction, from cancel in src/tx.rs. -/
def cancel (t : Transaction K V) : Except Error (Transaction K V) :=
  if t.done = true then .error .TxClosed
  else .ok { t with done := true }

/-- Commit the transaction, from commit in src/tx.rs: the datastore cell is
replaced by the transaction snapshot. -/
def commit (t : Transaction K V) (db : Database K V) :
    Except Error (Transaction K V × Database K V) :=
  if t.done = true then .error .TxClosed
  else if t.write = false then .error .TxNotWritable
  else .ok ({ t with done := true }, { db with datastore := t.snapshot })

/-- Check if a key exists, from exists in src/tx.rs. -/
def existsKey [DecidableEq K] (t : Transaction K V) (k : K) :
    Except Error Bool :=
  if t.done = true then .error .TxClosed
  else .ok (OrdMap.containsKey t.snapshot k)

/-- Fetch a key, from get in src/tx.rs. -/
def get [DecidableEq K] (t : Transaction K V) (k : K) :
    Except Error (Option V) :=
  if t.done = true then .error .TxClosed
  else .ok (OrdMap.find t.snapshot k)

/-- Insert or update a key, from set in src/tx.rs. -/
def set [LinearOrder K] (t : Transaction K V) (k : K) (v : V) :
    Except Error (Transaction K V) :=
  if t.done = true then .error .TxClosed
  else if t.write = false then .error .TxNotWritable
  else .ok { t with snapshot := OrdMap.insert t.snapshot k v }

/-- Insert a key only if absent, from put in src/tx.rs: the vacant entry
inserts, the occupied entry fails. -/
def put [LinearOrder K] (t : Transaction K V) (k : K) (v : V) :
    Except Error (Transaction K V) :=
  if t.done = true then .error .TxClosed
  else if t.write = false then .error .TxNotWritable
  else match OrdMap.find t.snapshot k with
    | none => .ok { t with snapshot := OrdMap.insert t.snapshot k v }
    | some _ => .error .KeyAlreadyExists

/-- Conditional insert or update, from putc in src/tx.rs: an occupied entry
whose value equals the check updates, a vacant entry with a none check
inserts, anything else fails. -/
def putc [LinearOrder K] [DecidableEq V] (t : Transaction K V) (k : K)
    (v : V) (chk : Option V) : Except Error (Transaction K V) :=
  if t.done = true then .error .TxClosed
  else if t.write = false then .error .TxNotWritable
  else match OrdMap.find t.snapshot k, chk with
    | some w, some c =>
      if w = c then .ok { t with snapshot := OrdMap.insert t.snapshot k v }
      else .error .ValNotExpectedValue
    | none, none => .ok { t with snapshot := OrdMap.insert t.snapshot k v }
    | _, _ => .error .ValNotExpectedValue

/-- Delete a key, from del in src/tx.rs. -/
def del [DecidableEq K] (t : Transaction K V) (k : K) :
    Except Error (Transaction K V) :=
  if t.done = true then .error .TxClosed
  else if t.write = false then .error .TxNotWritable
  else .ok { t with snapshot := OrdMap.remove t.snapshot k }

/-- Conditional delete, from delc in src/tx.rs: an occupied entry whose
value equals the check is removed, a vacant entry with a none check is a
no-op, anything else fails. -/
def delc [DecidableEq K] [DecidableEq V] (t : Transaction K V) (k : K)
    (chk : Option V) : Except Error (Transaction K V) :=
  if t.done = true then .error .TxClosed
  else if t.write = false then .error .TxNotWritable
  else match OrdMap.find t.snapshot k, chk with
    | some w, some c =>
      if w = c then .ok { t with snapshot := OrdMap.remove t.snapshot k }
      else .error .ValNotExpectedValue
    | none, none => .ok t
    | _, _ => .error .ValNotExpectedValue

/-- Range of keys, from keys in src/tx.rs: range, then take limit, then
project the keys. -/
def keys [LinearOrder K] (t : Transaction K V) (lo hi : K) (limit : Nat) :
    Except Error (List K) :=
  if t.done = true then .error .TxClosed
  else .ok (((OrdMap.range t.snapshot lo hi).take limit).map Prod.fst)

/-- Range of key-value pairs, from scan in src/tx.rs: range, then take
limit. -/
def scan [LinearOrder K] (t : Transaction K V) (lo hi : K) (limit : Nat) :
    Except Error (List (K × V)) :=
  if t.done = true then .error .TxClosed
  else .ok ((OrdMap.range t.snapshot lo hi).take limit)

end Transaction

/-- The operations a client can invoke on an existing transaction, used to
quantify over the whole transaction interface of src/tx.rs at once. -/
inductive TxOp (K V : Type) where
  | existsOp (k : K)
  | getOp (k : K)
  | setOp (k : K) (v : V)
  | putOp (k : K) (v : V)
  | putcOp (k : K) (v : V) (chk : Option V)
  | delOp (k : K)
  | delcOp (k : K) (chk : Option V)
  | keysOp (lo hi : K) (limit : Nat)
  | scanOp (lo hi : K) (limit : Nat)
  | commitOp
  | cancelOp
  deriving Repr, DecidableEq

/-- Run one transaction operation against its database, yielding the next
transaction state, the next database state, and the error if the operation
failed. A failed operation returns with both states unchanged, and only
commit touches the database; each case defers to the corresponding
operation of src/tx.rs. -/
def stepTx [LinearOrder K] [DecidableEq V] (t : Transaction K V)
    (db : Database K V) (o : TxOp K V) :
    (Transaction K V × Database K V) × Option Error :=
  match o with
  | .existsOp k =>
    match t.existsKey k with
    | .ok _ => ((t, db), none)
    | .error e => ((t, db), some e)
  | .getOp k =>
    match t.get k with
    | .ok _ => ((t, db), none)
    | .error e => ((t, db), some e)
  | .setOp k v =>
    match t.set k v with
    | .ok t' => ((t', db), none)
    | .error e => ((t, db), some e)
  | .putOp k v =>
    match t.put k v with
    | .ok t' => ((t', db), none)
    | .error e => ((t, db), some e)
  | .putcOp k v chk =>
    match t.putc k v chk with
    | .ok t' => ((t', db), none)
    | .error e => ((t, db), some e)
  | .delOp k =>
    match t.del k with
    | .ok t' => ((t', db), none)
    | .error e => ((t, db), some e)
  | .delcOp k chk =>
    match t.delc k chk with
    | .ok t' => ((t', db), none)
    | .error e => ((t, db), some e)
  | .keysOp lo hi limit =>
    match t.keys lo hi limit with
    | .ok _ => ((t, db), none)
    | .error e => ((t, db), some e)
  | .scanOp lo hi limit =>
    match t.scan lo hi limit with
    | .ok _ => ((t, db), none)
    | .error e => ((t, db), some e)
  | .commitOp =>
    match t.commit db with
    | .ok (t', db') => ((t', db'), none)
    | .error e => ((t, db), some e)
  | .cancelOp =>
    match t.cancel with
    | .ok t' => ((t', db), none)
    | .error e => ((t, db), some e)

/-- A whole-store configuration: the shared database plus every transaction
begun so far, identified by its position in the list. -/
structure Sys (K V : Type) where
  db : Database K V
  txs : List (Transaction K V)

/-- An action on the store: begin a new transaction, or run one operation
on transaction number i. -/
inductive Act (K V : Type) where
  | beginAct (write : Bool)
  | txAct (i : Nat) (o : TxOp K V)

/-- The transaction an action operates on, if any. -/
def Act.actor : Act K V → Option Nat
  | .beginAct _ => none
  | .txAct i _ => some i

/-- One step of the whole store: begin appends a fresh transaction loaded
from the committed map, and a transaction action runs stepTx on that
transaction and the shared database. -/
def Sys.step [LinearOrder K] [DecidableEq V] (s : Sys K V) (a : Act K V) :
    Sys K V :=
  match a with
  | .beginAct w => { s with txs := s.txs ++ [s.db.begin w] }
  | .txAct i o =>
    match s.txs[i]? with
    | none => s
    | some t =>
      let r := stepTx t s.db o
      { db := r.1.2, txs := s.txs.set i r.1.1 }

/-- Run a list of actions from left to right. -/
def Sys.run [LinearOrder K] [DecidableEq V] (s : Sys K V)
    (as : List (Act K V)) : Sys K V :=
  as.foldl Sys.step s

/-! Helper lemmas about the ordered map operations. -/

theorem OrdMap.find_insert [LinearOrder K] (m : OrdMap K V) (k : K) (v : V) :
    OrdMap.find (OrdMap.insert m k v) k = some v := by
  induction m with
  | nil => simp [OrdMap.insert, OrdMap.find]
  | cons p rest ih =>
    obtain ⟨k', v'⟩ := p
    by_cases h1 : k < k'
    · simp [OrdMap.insert, OrdMap.find, h1]
    · by_cases h2 : k = k'
      · simp [OrdMap.insert, OrdMap.find, h1, h2]
      · simp [OrdMap.insert, OrdMap.find, h1, h2, ih]

/-- Any entry of an insert result is the inserted key or an entry of the
original map. -/
theorem OrdMap.mem_insert [LinearOrder K] (m : OrdMap K V) (k : K) (v : V)
    (p : K × V) (hp : p ∈ OrdMap.insert m k v) : p.1 = k ∨ p ∈ m := by
  induction m with
  | nil =>
    simp [OrdMap.insert] at hp
    simp [hp]
  | cons q rest ih =>
    obtain ⟨k', v'⟩ := q
    by_cases h1 : k < k'
    · simp only [OrdMap.insert, if_pos h1, List.mem_cons] at hp
      rcases hp with h | h
      · left
        simp [h]
      · right
        simpa using h
    · by_cases h2 : k = k'
      · simp only [OrdMap.insert, if_neg h1, if_pos h2, List.mem_cons] at hp
        rcases hp with h | h
        · left
          simp [h]
        · right
          simp [h]
      · simp only [OrdMap.insert, if_neg h1, if_neg h2, List.mem_cons] at hp
        rcases hp with h | h
        · right
          simp [h]
        · rcases ih h with h' | h'
          · left
            exact h'
          · right
            simp [h']

/-- Insert keeps the map strictly sorted by key. -/
theorem OrdMap.insert_sorted [LinearOrder K] {m : OrdMap K V}
    (hs : OrdMap.Sorted m) (k : K) (v : V) :
    OrdMap.Sorted (OrdMap.insert m k v) := by
  induction m with
  | nil => simp [OrdMap.insert]
  | cons q rest ih =>
    obtain ⟨k', v'⟩ := q
    cases hs with
    | cons hall hrest =>
      by_cases h1 : k < k'
      · simp only [OrdMap.insert, if_pos h1]
        refine List.Pairwise.cons ?_ (List.Pairwise.cons hall hrest)
        intro p hp
        rcases List.mem_cons.mp hp with h | h
        · simp [h, h1]
        · exact h1.trans (hall p h)
      · by_cases h2 : k = k'
        · simp only [OrdMap.insert, if_neg h1, if_pos h2]
          subst h2
          exact List.Pairwise.cons hall hrest
        · have h3 : k' < k := lt_of_le_of_ne (not_lt.mp h1) (Ne.symm h2)
          simp only [OrdMap.insert, if_neg h1, if_neg h2]
          refine List.Pairwise.cons ?_ (ih hrest)
          intro p hp
          rcases OrdMap.mem_insert rest k v p hp with h | h
          · rw [h]
            exact h3
          · exact hall p h

/-- Remove yields a sublist of the original map. -/
theorem OrdMap.remove_sublist [DecidableEq K] (m : OrdMap K V) (k : K) :
    List.Sublist (OrdMap.remove m k) m := by
  induction m with
  | nil => simp [OrdMap.remove]
  | cons q rest ih =>
    obtain ⟨k', v'⟩ := q
    by_cases h : k = k'
    · simp [OrdMap.remove, h]
    · rw [OrdMap.remove, if_neg h]
      exact List.Sublist.cons₂ _ ih

/-- Remove keeps the map strictly sorted by key. -/
theorem OrdMap.remove_sorted [LinearOrder K] {m : OrdMap K V}
    (hs : OrdMap.Sorted m) (k : K) :
    OrdMap.Sorted (OrdMap.remove m k) :=
  List.Pairwise.sublist (OrdMap.remove_sublist m k) hs

/-- Every transaction operation keeps both the transaction snapshot and the
database map strictly sorted: the representation invariant of the ordered
map is maintained by the whole interface. -/
theorem stepTx_sorted [LinearOrder K] [DecidableEq V] (t : Transaction K V)
    (db : Database K V) (o : TxOp K V) (hst : OrdMap.Sorted t.snapshot)
    (hsd : OrdMap.Sorted db.datastore) :
    OrdMap.Sorted (stepTx t db o).1.1.snapshot ∧
    OrdMap.Sorted (stepTx t db o).1.2.datastore := by
  by_cases hd : t.done = true
  · cases o <;>
      simp [stepTx, Transaction.existsKey, Transaction.get, Transaction.set,
        Transaction.put, Transaction.putc, Transaction.del,
        Transaction.delc, Transaction.keys, Transaction.scan,
        Transaction.commit, Transaction.cancel, hd] <;>
      exact ⟨hst, hsd⟩
  · by_cases hw : t.write = false
    · cases o <;>
        simp [stepTx, Transaction.existsKey, Transaction.get,
          Transaction.set, Transaction.put, Transaction.putc,
          Transaction.del, Transaction.delc, Transaction.keys,
          Transaction.scan, Transaction.commit, Transaction.cancel,
          hd, hw] <;>
        exact ⟨hst, hsd⟩
    · cases o with
      | existsOp k =>
        simp [stepTx, Transaction.existsKey, hd]
        exact ⟨hst, hsd⟩
      | getOp k =>
        simp [stepTx, Transaction.get, hd]
        exact ⟨hst, hsd⟩
      | setOp k v =>
        simp [stepTx, Transaction.set, hd, hw]
        exact ⟨OrdMap.insert_sorted hst k v, hsd⟩
      | putOp k v =>
        rcases hf : OrdMap.find t.snapshot k with _ | w <;>
          simp [stepTx, Transaction.put, hd, hw, hf]
        · exact ⟨OrdMap.insert_sorted hst k v, hsd⟩
        · exact ⟨hst, hsd⟩
      | putcOp k v chk =>
        rcases hf : OrdMap.find t.snapshot k with _ | w <;>
          rcases hc : chk with _ | c <;>
          simp [stepTx, Transaction.putc, hd, hw, hf]
        · exact ⟨OrdMap.insert_sorted hst k v, hsd⟩
        · exact ⟨hst, hsd⟩
        · exact ⟨hst, hsd⟩
        · by_cases he : w = c <;> simp [he]
          · exact ⟨OrdMap.insert_sorted hst k v, hsd⟩
          · exact ⟨hst, hsd⟩
      | delOp k =>
        simp [stepTx, Transaction.del, hd, hw]
        exact ⟨OrdMap.remove_sorted hst k, hsd⟩
      | delcOp k chk =>
        rcases hf : OrdMap.find t.snapshot k with _ | w <;>
          rcases hc : chk with _ | c <;>
          simp [stepTx, Transaction.delc, hd, hw, hf]
        · exact ⟨hst, hsd⟩
        · exact ⟨hst, hsd⟩
        · exact ⟨hst, hsd⟩
        · by_cases he : w = c <;> simp [he]
          · exact ⟨OrdMap.remove_sorted hst k, hsd⟩
          · exact ⟨hst, hsd⟩
      | keysOp lo hi limit =>
        simp [stepTx, Transaction.keys, hd]
        exact ⟨hst, hsd⟩
      | scanOp lo hi limit =>
        simp [stepTx, Transaction.scan, hd]
        exact ⟨hst, hsd⟩
      | commitOp =>
        simp [stepTx, Transaction.commit, hd, hw]
        exact hst
      | cancelOp =>
        simp [stepTx, Transaction.cancel, hd]
        exact ⟨hst, hsd⟩

/-! Claim theorems. -/

/-- C2: commit on a done transaction fails with TxClosed; on an active
read-only transaction it fails with TxNotWritable; on an active writable
transaction it succeeds, marks the transaction done, replaces the
database's committed map with exactly the transaction's snapshot, and any
later begin on the resulting database observes that snapshot. -/
theorem commit_spec [LinearOrder K] [DecidableEq V] (t : Transaction K V)
    (db : Database K V) (w : Bool) :
    (t.done = true → t.commit db = .error .TxClosed) ∧
    (t.done = false → t.write = false →
      t.commit db = .error .TxNotWritable) ∧
    (t.done = false → t.write = true →
      t.commit db =
        .ok ({ t with done := true }, { db with datastore := t.snapshot }) ∧
      (Database.begin { db with datastore := t.snapshot } w).snapshot
        = t.snapshot) := by
  refine ⟨fun h => ?_, fun hd hw => ?_, fun hd hw => ?_⟩ <;>
    simp [Transaction.commit, Database.begin, *]

/-- Witness for C2 at concrete inputs over natural-number keys and
values. -/
theorem commit_spec_witness :
    (Transaction.commit (K := Nat) (V := Nat) ⟨true, true, []⟩ ⟨[]⟩
      = .error .TxClosed) ∧
    (Transaction.commit (K := Nat) (V := Nat) ⟨false, false, []⟩ ⟨[]⟩
      = .error .TxNotWritable) ∧
    (Transaction.commit (K := Nat) (V := Nat) ⟨false, true, [(1, 2)]⟩ ⟨[]⟩
      = .ok (⟨true, true, [(1, 2)]⟩, ⟨[(1, 2)]⟩) ∧
     (Database.begin (K := Nat) (V := Nat) ⟨[(1, 2)]⟩ false).snapshot
      = [(1, 2)]) :=
  ⟨(commit_spec ⟨true, true, []⟩ ⟨[]⟩ false).1 rfl,
   (commit_spec ⟨false, false, []⟩ ⟨[]⟩ false).2.1 rfl rfl,
   (commit_spec ⟨false, true, [(1, 2)]⟩ ⟨[]⟩ false).2.2 rfl rfl⟩

/-- C8: on an active writable transaction, put inserts the value when the
key is absent from the snapshot (so a following lookup of that key finds
the value), and fails with KeyAlreadyExists leaving the snapshot unchanged
when the key is present. -/
theorem put_spec [LinearOrder K] [DecidableEq V] (t : Transaction K V)
    (k : K) (v : V) (hd : t.done = false) (hw : t.write = true) :
    (OrdMap.find t.snapshot k = none →
      t.put k v = .ok { t with snapshot := OrdMap.insert t.snapshot k v } ∧
      OrdMap.find (OrdMap.insert t.snapshot k v) k = some v) ∧
    (OrdMap.find t.snapshot k ≠ none →
      t.put k v = .error .KeyAlreadyExists) := by
  constructor
  · intro h
    exact ⟨by simp [Transaction.put, hd, hw, h], OrdMap.find_insert ..⟩
  · intro h
    obtain ⟨w, hw'⟩ := Option.ne_none_iff_exists'.mp h
    simp [Transaction.put, hd, hw, hw']

/-- Witness for C8 at concrete inputs. -/
theorem put_spec_witness :
    (Transaction.put (K := Nat) (V := Nat) ⟨false, true, [(2, 5)]⟩ 1 7
      = .ok ⟨false, true, [(1, 7), (2, 5)]⟩ ∧
     OrdMap.find (OrdMap.insert (K := Nat) (V := Nat) [(2, 5)] 1 7) 1
      = some 7) ∧
    Transaction.put (K := Nat) (V := Nat) ⟨false, true, [(2, 5)]⟩ 2 7
      = .error .KeyAlreadyExists :=
  ⟨(put_spec ⟨false, true, [(2, 5)]⟩ 1 7 rfl rfl).1 rfl,
   (put_spec ⟨false, true, [(2, 5)]⟩ 2 7 rfl rfl).2 (by decide)⟩

/-- C4: on an active writable transaction, putc succeeds exactly when the
current lookup of the key equals the expected optional value (present with
an equal value, or absent with none expected); on success it stores the new
value at the key, on failure it returns ValNotExpectedValue with the
snapshot untouched. -/
theorem putc_spec [LinearOrder K] [DecidableEq V] (t : Transaction K V)
    (k : K) (v : V) (chk : Option V) (hd : t.done = false)
    (hw : t.write = true) :
    (OrdMap.find t.snapshot k = chk →
      t.putc k v chk
        = .ok { t with snapshot := OrdMap.insert t.snapshot k v } ∧
      OrdMap.find (OrdMap.insert t.snapshot k v) k = some v) ∧
    (OrdMap.find t.snapshot k ≠ chk →
      t.putc k v chk = .error .ValNotExpectedValue) := by
  constructor
  · intro h
    refine ⟨?_, OrdMap.find_insert ..⟩
    rcases hc : chk with _ | c <;> rw [hc] at h <;>
      simp [Transaction.putc, hd, hw, h]
  · intro h
    rcases hf : OrdMap.find t.snapshot k with _ | u <;>
      rcases hc : chk with _ | c <;> rw [hf, hc] at h <;>
      simp [Transaction.putc, hd, hw, hf, hc] <;> simp_all

/-- Witness for C4 at concrete inputs. -/
theorem putc_spec_witness :
    (Transaction.putc (K := Nat) (V := Nat) ⟨false, true, [(1, 5)]⟩ 1 6
      (some 5) = .ok ⟨false, true, [(1, 6)]⟩ ∧
     OrdMap.find (OrdMap.insert (K := Nat) (V := Nat) [(1, 5)] 1 6) 1
      = some 6) ∧
    Transaction.putc (K := Nat) (V := Nat) ⟨false, true, [(1, 5)]⟩ 1 7
      (some 9) = .error .ValNotExpectedValue :=
  ⟨(putc_spec ⟨false, true, [(1, 5)]⟩ 1 6 (some 5) rfl rfl).1 rfl,
   (putc_spec ⟨false, true, [(1, 5)]⟩ 1 7 (some 9) rfl rfl).2 (by decide)⟩

/-- C6: cancel on any transaction that is not done succeeds, marks it done,
and leaves the database's committed map unchanged whatever the snapshot
holds; cancel after a successful cancel or a successful commit returns
TxClosed. -/
theorem cancel_spec [LinearOrder K] [DecidableEq V] (t t2 : Transaction K V)
    (db db2 : Database K V) :
    (t.done = false →
      t.cancel = .ok { t with done := true } ∧
      (stepTx t db .cancelOp).1.2 = db) ∧
    (t.cancel = .ok t2 → t2.cancel = .error .TxClosed) ∧
    (t.commit db = .ok (t2, db2) → t2.cancel = .error .TxClosed) := by
  refine ⟨fun hd => ?_, fun h => ?_, fun h => ?_⟩
  · simp [Transaction.cancel, stepTx, hd]
  · by_cases hd : t.done = true
    · simp [Transaction.cancel, hd] at h
    · simp [Transaction.cancel, hd] at h
      simp [Transaction.cancel, ← h]
  · by_cases hd : t.done = true
    · simp [Transaction.commit, hd] at h
    · by_cases hw : t.write = false <;>
        simp [Transaction.commit, hd, hw] at h
      simp [Transaction.cancel, ← h.1]

/-- Witness for C6 at concrete inputs: a writable transaction with a
pending mutation is cancelled without touching the database, and
re-cancelling or cancelling after commit is rejected. -/
theorem cancel_spec_witness :
    (Transaction.cancel (K := Nat) (V := Nat) ⟨false, true, [(3, 4)]⟩
      = .ok ⟨true, true, [(3, 4)]⟩ ∧
     (stepTx (K := Nat) (V := Nat) ⟨false, true, [(3, 4)]⟩ ⟨[]⟩
       .cancelOp).1.2 = ⟨[]⟩) ∧
    Transaction.cancel (K := Nat) (V := Nat) ⟨true, true, [(3, 4)]⟩
      = .error .TxClosed :=
  ⟨(cancel_spec ⟨false, true, [(3, 4)]⟩ ⟨true, true, [(3, 4)]⟩ ⟨[]⟩
      ⟨[]⟩).1 rfl,
   (cancel_spec ⟨false, true, [(3, 4)]⟩ ⟨true, true, [(3, 4)]⟩ ⟨[]⟩
      ⟨[]⟩).2.1 rfl⟩

/-- C7: on an active read-only transaction every mutating operation and
commit fail with TxNotWritable leaving both the transaction and the
database unchanged, while exists, get, keys, scan and cancel still
succeed. -/
theorem readonly_spec [LinearOrder K] [DecidableEq V] (t : Transaction K V)
    (db : Database K V) (k : K) (v : V) (chk : Option V) (lo hi : K)
    (n : Nat) (hd : t.done = false) (hw : t.write = false) :
    stepTx t db (.setOp k v) = ((t, db), some .TxNotWritable) ∧
    stepTx t db (.putOp k v) = ((t, db), some .TxNotWritable) ∧
    stepTx t db (.putcOp k v chk) = ((t, db), some .TxNotWritable) ∧
    stepTx t db (.delOp k) = ((t, db), some .TxNotWritable) ∧
    stepTx t db (.delcOp k chk) = ((t, db), some .TxNotWritable) ∧
    stepTx t db .commitOp = ((t, db), some .TxNotWritable) ∧
    t.existsKey k = .ok (OrdMap.containsKey t.snapshot k) ∧
    t.get k = .ok (OrdMap.find t.snapshot k) ∧
    t.keys lo hi n
      = .ok (((OrdMap.range t.snapshot lo hi).take n).map Prod.fst) ∧
    t.scan lo hi n = .ok ((OrdMap.range t.snapshot lo hi).take n) ∧
    t.cancel = .ok { t with done := true } := by
  simp [stepTx, Transaction.set, Transaction.put, Transaction.putc,
    Transaction.del, Transaction.delc, Transaction.commit,
    Transaction.existsKey, Transaction.get, Transaction.keys,
    Transaction.scan, Transaction.cancel, hd, hw]

/-- Witness for C7 at concrete inputs. -/
theorem readonly_spec_witness :
    stepTx (K := Nat) (V := Nat) ⟨false, false, [(1, 2)]⟩ ⟨[(1, 2)]⟩
      (.setOp 3 4) = ((⟨false, false, [(1, 2)]⟩, ⟨[(1, 2)]⟩),
        some .TxNotWritable) ∧
    Transaction.get (K := Nat) (V := Nat) ⟨false, false, [(1, 2)]⟩ 1
      = .ok (some 2) ∧
    Transaction.cancel (K := Nat) (V := Nat) ⟨false, false, [(1, 2)]⟩
      = .ok ⟨true, false, [(1, 2)]⟩ := by
  have h := readonly_spec (K := Nat) (V := Nat) ⟨false, false, [(1, 2)]⟩
    ⟨[(1, 2)]⟩ 3 4 none 0 0 0 rfl rfl
  have hget := readonly_spec (K := Nat) (V := Nat) ⟨false, false, [(1, 2)]⟩
    ⟨[(1, 2)]⟩ 1 4 none 0 0 0 rfl rfl
  exact ⟨h.1, hget.2.2.2.2.2.2.2.1, h.2.2.2.2.2.2.2.2.2.2⟩

/-- C9: round-trip. On an active writable transaction, set of a key and
value followed by a successful commit yields a database on which a fresh
read-only transaction gets back exactly that value for that key. -/
theorem roundtrip_spec [LinearOrder K] [DecidableEq V]
    (t : Transaction K V) (db : Database K V) (k : K) (v : V)
    (hd : t.done = false) (hw : t.write = true) :
    ∃ t1 t2 db2, t.set k v = .ok t1 ∧ t1.commit db = .ok (t2, db2) ∧
      (db2.begin false).get k = .ok (some v) := by
  refine ⟨{ t with snapshot := OrdMap.insert t.snapshot k v },
    { t with done := true, snapshot := OrdMap.insert t.snapshot k v },
    { db with datastore := OrdMap.insert t.snapshot k v }, ?_, ?_, ?_⟩
  · simp [Transaction.set, hd, hw]
  · simp [Transaction.commit, hd, hw]
  · simp [Database.begin, Transaction.get, OrdMap.find_insert]

/-- Witness for C9 at concrete inputs, starting from the empty database. -/
theorem roundtrip_spec_witness :
    ∃ (t1 t2 : Transaction Nat Nat) (db2 : Database Nat Nat),
      Transaction.set ⟨false, true, []⟩ 4 44 = .ok t1 ∧
      t1.commit ⟨[]⟩ = .ok (t2, db2) ∧
      (db2.begin false).get 4 = .ok (some 44) :=
  roundtrip_spec ⟨false, true, []⟩ ⟨[]⟩ 4 44 rfl rfl

/-- C10: whenever scan succeeds, keys succeeds on the same range and limit
and returns exactly the first components of the pairs scan returned. -/
theorem keys_eq_scan_map [LinearOrder K] (t : Transaction K V) (lo hi : K)
    (n : Nat) (l : List (K × V)) (h : t.scan lo hi n = .ok l) :
    t.keys lo hi n = .ok (l.map Prod.fst) := by
  by_cases hd : t.done = true
  · simp [Transaction.scan, hd] at h
  · simp [Transaction.scan, hd] at h
    simp [Transaction.keys, hd, ← h]

/-- Witness for C10 at a concrete transaction, range and limit. -/
theorem keys_eq_scan_map_witness :
    Transaction.keys (K := Nat) (V := Nat)
      ⟨false, false, [(1, 5), (2, 6), (3, 7), (5, 9)]⟩ 2 5 10
      = .ok ([(2, 6), (3, 7)].map Prod.fst) :=
  keys_eq_scan_map ⟨false, false, [(1, 5), (2, 6), (3, 7), (5, 9)]⟩ 2 5 10
    [(2, 6), (3, 7)] (by decide)

/-- C5: on an active transaction whose snapshot satisfies the sortedness
invariant of the ordered map, scan and keys return the entries of the
half-open range lo inclusive to hi exclusive: every returned key lies in
the range, keys are strictly increasing, the result length is the minimum
of the limit and the number of snapshot entries in the range, and an empty
or inverted range returns the empty list. -/
theorem keys_scan_range_spec [LinearOrder K] (t : Transaction K V)
    (lo hi : K) (n : Nat) (hd : t.done = false)
    (hs : OrdMap.Sorted t.snapshot) :
    t.scan lo hi n = .ok ((OrdMap.range t.snapshot lo hi).take n) ∧
    t.keys lo hi n
      = .ok (((OrdMap.range t.snapshot lo hi).take n).map Prod.fst) ∧
    (∀ p ∈ (OrdMap.range t.snapshot lo hi).take n, lo ≤ p.1 ∧ p.1 < hi) ∧
    (((OrdMap.range t.snapshot lo hi).take n).map Prod.fst).Pairwise
      (fun a b => a < b) ∧
    ((OrdMap.range t.snapshot lo hi).take n).length
      = min n (OrdMap.range t.snapshot lo hi).length ∧
    (OrdMap.range t.snapshot lo hi).length
      = t.snapshot.countP
          (fun p => decide (lo ≤ p.1) && decide (p.1 < hi)) ∧
    (hi ≤ lo → (OrdMap.range t.snapshot lo hi).take n = []) := by
  have hsub : List.Sublist ((OrdMap.range t.snapshot lo hi).take n)
      t.snapshot :=
    (List.take_sublist n _).trans (List.filter_sublist _)
  refine ⟨by simp [Transaction.scan, hd], by simp [Transaction.keys, hd],
    ?_, ?_, List.length_take .., ?_, ?_⟩
  · intro p hp
    have hmem := List.mem_of_mem_take hp
    have := (List.mem_filter.mp hmem).2
    simpa using this
  · rw [List.pairwise_map]
    exact List.Pairwise.sublist hsub hs
  · exact (List.countP_eq_length_filter _ _).symm
  · intro h
    have hnil : OrdMap.range t.snapshot lo hi = [] := by
      rw [OrdMap.range, List.filter_eq_nil_iff]
      intro p _
      simp only [Bool.and_eq_true, decide_eq_true_eq, not_and, not_lt]
      intro hlo
      exact le_trans h hlo
    simp [hnil]

/-- Witness for C5 at a concrete sorted snapshot, range and limit. -/
theorem keys_scan_range_spec_witness :
    Transaction.scan (K := Nat) (V := Nat)
      ⟨false, false, [(1, 5), (2, 6), (3, 7), (5, 9)]⟩ 2 5 10
      = .ok [(2, 6), (3, 7)] ∧
    Transaction.keys (K := Nat) (V := Nat)
      ⟨false, false, [(1, 5), (2, 6), (3, 7), (5, 9)]⟩ 2 5 10
      = .ok [2, 3] ∧
    (OrdMap.range (K := Nat) (V := Nat)
      [(1, 5), (2, 6), (3, 7), (5, 9)] 2 5).take 10 = [(2, 6), (3, 7)] := by
  have h := keys_scan_range_spec (K := Nat) (V := Nat)
    ⟨false, false, [(1, 5), (2, 6), (3, 7), (5, 9)]⟩ 2 5 10 rfl
    (by decide)
  exact ⟨h.1, h.2.1, by decide⟩

/-- C3: once a transaction is done, every operation of the interface
(exists, get, set, put, putc, del, delc, keys, scan, commit and cancel)
fails with TxClosed leaving the transaction and the database unchanged, so
in particular the done flag is never reset; the closed inspection still
reports true. -/
theorem done_monotonic_spec [LinearOrder K] [DecidableEq V]
    (t : Transaction K V) (db : Database K V) (o : TxOp K V)
    (h : t.done = true) :
    stepTx t db o = ((t, db), some Error.TxClosed) ∧ t.closed = true := by
  refine ⟨?_, h⟩
  cases o <;>
    simp [stepTx, Transaction.existsKey, Transaction.get, Transaction.set,
      Transaction.put, Transaction.putc, Transaction.del, Transaction.delc,
      Transaction.keys, Transaction.scan, Transaction.commit,
      Transaction.cancel, h]

/-- Witness for C3 at a concrete closed transaction and operation. -/
theorem done_monotonic_spec_witness :
    stepTx (K := Nat) (V := Nat) ⟨true, true, [(1, 2)]⟩ ⟨[]⟩ (.setOp 3 4)
      = ((⟨true, true, [(1, 2)]⟩, ⟨[]⟩), some Error.TxClosed) ∧
    Transaction.closed (K := Nat) (V := Nat) ⟨true, true, [(1, 2)]⟩
      = true :=
  done_monotonic_spec ⟨true, true, [(1, 2)]⟩ ⟨[]⟩ (.setOp 3 4) rfl

/-- An action that does not address transaction i leaves slot i of the
transaction list untouched and keeps i in range. -/
theorem Sys.step_get?_of_actor_ne [LinearOrder K] [DecidableEq V]
    (s : Sys K V) (a : Act K V) (i : Nat) (hlen : i < s.txs.length)
    (ha : a.actor ≠ some i) :
    (Sys.step s a).txs[i]? = s.txs[i]? ∧
    i < (Sys.step s a).txs.length := by
  cases a with
  | beginAct w =>
    refine ⟨List.getElem?_append_left hlen, ?_⟩
    simp [Sys.step]
    omega
  | txAct j o =>
    have hij : j ≠ i := by
      intro e
      exact ha (by simp [Act.actor, e])
    cases hj : s.txs[j]? with
    | none => simp [Sys.step, hj, hlen]
    | some u =>
      refine ⟨?_, ?_⟩
      · simp only [Sys.step, hj]
        exact List.getElem?_set_ne hij
      · simp [Sys.step, hj, hlen]

/-- C1: snapshot stability. For any store configuration holding transaction
t at slot i, any sequence of actions none of which addresses slot i (other
transactions may begin, mutate and commit freely) leaves transaction t
exactly as it was, and in particular every get, exists, keys and scan on it
returns the same result as before those actions. -/
theorem snapshot_stability [LinearOrder K] [DecidableEq V] (s : Sys K V)
    (as : List (Act K V)) (i : Nat) (t : Transaction K V) (k lo hi : K)
    (n : Nat) (hlen : i < s.txs.length)
    (ha : ∀ a ∈ as, a.actor ≠ some i) (ht : s.txs[i]? = some t) :
    (Sys.run s as).txs[i]? = some t ∧
    ((Sys.run s as).txs[i]?).map
      (fun u => (u.get k, u.existsKey k, u.keys lo hi n, u.scan lo hi n))
      = some (t.get k, t.existsKey k, t.keys lo hi n, t.scan lo hi n) := by
  have main : ∀ (bs : List (Act K V)) (s0 : Sys K V), i < s0.txs.length →
      (∀ a ∈ bs, a.actor ≠ some i) →
      (Sys.run s0 bs).txs[i]? = s0.txs[i]? := by
    intro bs
    induction bs with
    | nil =>
      intro s0 _ _
      rfl
    | cons a rest ih =>
      intro s0 hlen0 ha0
      have h1 := Sys.step_get?_of_actor_ne s0 a i hlen0 (ha0 a (by simp))
      have h2 := ih (Sys.step s0 a) h1.2 (fun b hb => ha0 b (by simp [hb]))
      exact h2.trans h1.1
  have h := (main as s hlen ha).trans ht
  exact ⟨h, by rw [h]; rfl⟩

/-- Witness for C1: a reader begun on a committed map is unaffected by a
writer that begins, mutates and commits afterwards. -/
theorem snapshot_stability_witness :
    (Sys.run (K := Nat) (V := Nat) ⟨⟨[(1, 9)]⟩, [⟨false, false, [(1, 9)]⟩]⟩
      [.beginAct true, .txAct 1 (.setOp 2 5), .txAct 1 .commitOp]).txs[0]?
      = some ⟨false, false, [(1, 9)]⟩ ∧
    ((Sys.run (K := Nat) (V := Nat) ⟨⟨[(1, 9)]⟩, [⟨false, false, [(1, 9)]⟩]⟩
      [.beginAct true, .txAct 1 (.setOp 2 5), .txAct 1 .commitOp]).txs[0]?).map
      (fun u => (u.get 2, u.existsKey 2, u.keys 0 10 10, u.scan 0 10 10))
      = some (Transaction.get ⟨false, false, [(1, 9)]⟩ 2,
          Transaction.existsKey ⟨false, false, [(1, 9)]⟩ 2,
          Transaction.keys ⟨false, false, [(1, 9)]⟩ 0 10 10,
          Transaction.scan ⟨false, false, [(1, 9)]⟩ 0 10 10) :=
  snapshot_stability ⟨⟨[(1, 9)]⟩, [⟨false, false, [(1, 9)]⟩]⟩
    [.beginAct true, .txAct 1 (.setOp 2 5), .txAct 1 .commitOp] 0
    ⟨false, false, [(1, 9)]⟩ 2 0 10 10 (by decide) (by decide) rfl

end EchoDB
